import Mathlib

/-!
Verification development for the fastfindr semantic document store.

The Document Store (src/server/src/storage.cpp) is a SQLite-backed table pair
(documents, document_metadata).  The Index Coordinator
(src/server/src/vector_search.cpp) owns the store, an HNSW ANN index and a
position-to-id mapping.  The Inference Engine (src/server/src/inference.cpp)
performs masked mean pooling and L2 normalization.  The HTTP facade is
src/server/src/server.cpp.  This file gives a shallow embedding of those
components and proves the specification claims about them.

Ids are modelled as strings, following the authoritative string-id schema of
storage.cpp and the facade in server.cpp.  SQLite behaviour that the source
relies on (BINARY collation on `ORDER BY id`, `LIKE` matching, `INSERT OR
REPLACE`, cascade deletes) is embedded explicitly.
-/

/-! ## String ordering (SQLite BINARY collation)

SQLite compares TEXT columns bytewise; on valid UTF-8 this is codepoint
lexicographic order, embedded here on character lists. -/

/-- Lexicographic comparison of character lists, mirroring SQLite's BINARY
collation used by `ORDER BY id`. -/
def leChars : List Char → List Char → Bool
  | [], _ => true
  | _ :: _, [] => false
  | a :: as, b :: bs => if a = b then leChars as bs else decide (a < b)

/-- String comparison used for `ORDER BY id` result ordering. -/
def leStr (a b : String) : Bool :=
  leChars a.toList b.toList

/-- Insertion step of insertion sort with a boolean order. -/
def insertBy (le : α → α → Bool) (x : α) : List α → List α
  | [] => [x]
  | y :: ys => if le x y then x :: y :: ys else y :: insertBy le x ys

/-- Insertion sort with a boolean order; models an SQL `ORDER BY`. -/
def sortBy (le : α → α → Bool) (l : List α) : List α :=
  l.foldr (insertBy le) []


/-! ## SQLite LIKE matching

`Storage::searchDocuments` issues `SELECT ... WHERE text LIKE ?` with the
pattern `"%" + textQuery + "%"`.  SQLite's default LIKE is case-insensitive
for ASCII letters, `%` matches any character sequence and `_` matches any
single character.  `Char.toLower` lowercases exactly the ASCII range, matching
SQLite's folding. -/

/-- SQLite LIKE pattern matching on character lists: first argument is the
pattern, second the text.  ASCII-case-insensitive, with `%` and `_`
wildcards. -/
def likeMatch : List Char → List Char → Bool
  | [], s => s.isEmpty
  | '%' :: ps, s => s.tails.any (fun t => likeMatch ps t)
  | '_' :: ps, s =>
    match s with
    | [] => false
    | _ :: cs => likeMatch ps cs
  | p :: ps, s =>
    match s with
    | [] => false
    | c :: cs => (p.toLower = c.toLower) && likeMatch ps cs

/-- The LIKE test the store runs for a substring query `q` against a text. -/
def likeQuery (q text : String) : Bool :=
  likeMatch ("%" ++ q ++ "%").toList text.toList

/-- Plain (case-sensitive, wildcard-free) prefix test on character lists. -/
def beginsWith : List Char → List Char → Bool
  | [], _ => true
  | _ :: _, [] => false
  | a :: as, b :: bs => (a = b) && beginsWith as bs

/-- Literal substring containment, the relation the specification's
`search_substring` contract is phrased in: `q` occurs contiguously in `s`. -/
def containsSub (q s : String) : Bool :=
  s.toList.tails.any (beginsWith q.toList)

/-! ## Document Store (src/server/src/storage.cpp)

Two relations: `documents (id TEXT PRIMARY KEY, text, created_at, updated_at)`
and `document_metadata (document_id, key, value)` with primary key
`(document_id, key)` and `ON DELETE CASCADE`.  Timestamps are modelled as
naturals supplied by the caller (`CURRENT_TIMESTAMP`). -/

/-- Row of the `documents` table. -/
structure DocRow where
  id : String
  text : String
  createdAt : Nat
  updatedAt : Nat
deriving DecidableEq, Repr

/-- Row of the `document_metadata` table (timestamp columns omitted; no
claim mentions them). -/
structure MetaRow where
  docId : String
  key : String
  value : String
deriving DecidableEq, Repr

/-- Document Store state: the two SQLite relations, rows in insertion order. -/
structure Store where
  docs : List DocRow
  meta : List MetaRow
deriving DecidableEq, Repr

/-- Query result shape (`Document` in storage.h): id, text and the metadata
map.  The metadata list is key-sorted, modelling `std::map`. -/
structure Document where
  id : String
  text : String
  metadata : List (String × String)
deriving DecidableEq, Repr

/-- Storage::documentExists - `SELECT 1 FROM documents WHERE id = ? LIMIT 1`. -/
def documentExists (s : Store) (id : String) : Bool :=
  s.docs.any (fun d => d.id == id)

/-- Metadata rows carried by a document, in table order
(`SELECT key, value FROM document_metadata WHERE document_id = ?`). -/
def metaFor (meta : List MetaRow) (id : String) : List (String × String) :=
  meta.filterMap (fun r => if r.docId == id then some (r.key, r.value) else none)

/-- Storage::getMetadata - the rows for `id` accumulated into a `std::map`
(key-sorted, later duplicate keys overwrite; the table's primary key keeps
keys unique so sorting the rows is the resulting map). -/
def getMetadata (s : Store) (id : String) : List (String × String) :=
  sortBy (fun a b => leStr a.1 b.1) (metaFor s.meta id)

/-- Storage::addMetadata - `INSERT OR REPLACE INTO document_metadata`: any row
with the same `(document_id, key)` is replaced. -/
def addMetadataRow (meta : List MetaRow) (id key value : String) : List MetaRow :=
  meta.filter (fun r => !(r.docId == id && r.key == key)) ++ [⟨id, key, value⟩]

/-- The per-entry metadata insertion loop shared by add / update / upsert. -/
def insertMetaRows (meta : List MetaRow) (id : String)
    (md : List (String × String)) : List MetaRow :=
  md.foldl (fun m kv => addMetadataRow m id kv.1 kv.2) meta

/-- Storage::generateRandomId - `"doc_"` followed by twelve random
alphanumerics and a millisecond timestamp; the random tail is supplied by the
caller as `suffix`. -/
def generatedId (suffix : String) : String :=
  "doc_" ++ suffix

/-- Storage::addDocument - uses `customId` if non-empty (failing on a
collision), otherwise a freshly generated id built from the random suffix
`genSuffix`; inserts the document row (the `INSERT` fails on a primary-key
conflict) then one metadata row per entry.  Returns the empty string on
failure, leaving the store unchanged. -/
def addDocument (s : Store) (now : Nat) (text : String)
    (md : List (String × String)) (customId genSuffix : String) : String × Store :=
  let documentId := if customId = "" then generatedId genSuffix else customId
  if customId ≠ "" ∧ documentExists s documentId then ("", s)
  else if documentExists s documentId then ("", s)
  else
    let docs1 := s.docs ++ [⟨documentId, text, now, now⟩]
    (documentId, { docs := docs1, meta := insertMetaRows s.meta documentId md })

/-- Storage::updateDocument - `UPDATE documents SET text, updated_at WHERE id`;
when no row changes it returns false before touching metadata; otherwise it
deletes the document's metadata rows and inserts the new entries. -/
def updateDocument (s : Store) (now : Nat) (id text : String)
    (md : List (String × String)) : Bool × Store :=
  if ¬ documentExists s id then (false, s)
  else
    let docs1 := s.docs.map (fun d =>
      if d.id == id then { d with text := text, updatedAt := now } else d)
    let meta1 := s.meta.filter (fun r => !(r.docId == id))
    (true, { docs := docs1, meta := insertMetaRows meta1 id md })

/-- Storage::upsertDocument - `INSERT OR REPLACE` keeping the original
`created_at` via `COALESCE((SELECT created_at ...), CURRENT_TIMESTAMP)`, then
metadata delete-and-reinsert.  Always succeeds. -/
def upsertDocument (s : Store) (now : Nat) (id text : String)
    (md : List (String × String)) : Bool × Store :=
  let createdAt :=
    match s.docs.find? (fun d => d.id == id) with
    | some d => d.createdAt
    | none => now
  let docs1 := s.docs.filter (fun d => !(d.id == id)) ++ [⟨id, text, createdAt, now⟩]
  let meta1 := s.meta.filter (fun r => !(r.docId == id))
  (true, { docs := docs1, meta := insertMetaRows meta1 id md })

/-- Storage::deleteDocument - `DELETE FROM documents WHERE id = ?`; the
metadata rows cascade.  Returns whether a row was deleted. -/
def deleteDocument (s : Store) (id : String) : Bool × Store :=
  if documentExists s id then
    (true, { docs := s.docs.filter (fun d => !(d.id == id)),
             meta := s.meta.filter (fun r => !(r.docId == id)) })
  else (false, s)

/-- Storage::getDocument - `SELECT id, text FROM documents WHERE id = ?` plus
metadata load; a miss yields the default-constructed `Document()`. -/
def getDocument (s : Store) (id : String) : Document :=
  match s.docs.find? (fun d => d.id == id) with
  | some d => ⟨d.id, d.text, getMetadata s d.id⟩
  | none => ⟨"", "", []⟩

/-- Storage::getAllDocuments - `SELECT id, text FROM documents ORDER BY id`
with metadata loaded per row. -/
def getAllDocuments (s : Store) : List Document :=
  (sortBy (fun a b => leStr a.id b.id) s.docs).map
    (fun d => ⟨d.id, d.text, getMetadata s d.id⟩)

/-- Storage::searchDocuments - `SELECT ... WHERE text LIKE '%q%' ORDER BY id`
with metadata loaded per row. -/
def searchDocuments (s : Store) (q : String) : List Document :=
  (sortBy (fun a b => leStr a.id b.id)
      (s.docs.filter (fun d => likeQuery q d.text))).map
    (fun d => ⟨d.id, d.text, getMetadata s d.id⟩)

/-- Storage::getDocumentCount - `SELECT COUNT(*) FROM documents`. -/
def getDocumentCount (s : Store) : Nat :=
  s.docs.length

/-- Storage::getAllDocumentIds - `SELECT id FROM documents ORDER BY id`. -/
def getAllDocumentIds (s : Store) : List String :=
  sortBy leStr (s.docs.map (fun d => d.id))

/-! ## Index Coordinator (src/server/src/vector_search.cpp)

The coordinator owns the store, the HNSW index and the position-to-id
mapping.  The inference engine and the HNSW index are external collaborators:
embedding is a caller-supplied function `embed` (empty result = failure, the
condition `VectorSearch::addDocument` tests), and ANN query results are an
oracle list of `(position, distance)` pairs.  Only the index's vector count
is tracked, as the vectors themselves never influence the claims. -/

/-- SearchResult as materialized by the facade: string id, text, score,
metadata. -/
structure SearchResult where
  id : String
  text : String
  score : ℚ
  metadata : List (String × String)
deriving DecidableEq, Repr

/-- Coordinator state: the Document Store, the ANN index's vector count
(`index->ntotal`) and the position-to-id mapping (`indexToDocumentId_`). -/
structure Coord where
  store : Store
  annCount : Nat
  mapping : List String
deriving DecidableEq, Repr

/-- VectorSearch::rebuildIndex - clear index and mapping, re-read all
documents, re-embed them in one batch, add the embedding matrix and rebuild
the mapping in the same document order. -/
def rebuildIndex (embed : String → List ℚ) (c : Coord) : Coord :=
  let documents := getAllDocuments c.store
  if documents.isEmpty then { c with annCount := 0, mapping := [] }
  else
    let embeddings := documents.map (fun d => embed d.text)
    { c with annCount := embeddings.length,
             mapping := documents.map (fun d => d.id) }

/-- VectorSearch::addDocument - persist first, then embed; on embedding
failure compensate with a storage delete; on success add one vector and
append the id to the mapping. -/
def coordAddDocument (embed : String → List ℚ) (c : Coord) (now : Nat)
    (text : String) (md : List (String × String)) (customId genSuffix : String) :
    String × Coord :=
  let (documentId, s1) := addDocument c.store now text md customId genSuffix
  if documentId = "" then ("", { c with store := s1 })
  else
    let embedding := embed text
    if embedding.isEmpty then
      let s2 := (deleteDocument s1 documentId).2
      ("", { c with store := s2 })
    else
      (documentId, { store := s1, annCount := c.annCount + 1,
                     mapping := c.mapping ++ [documentId] })

/-- The storage loop of `VectorSearch::addDocuments`: add every document,
failing (rollback) as soon as one insert returns the empty id. -/
def addAllDocs (now : Nat) (s : Store) :
    List (String × List (String × String) × String) →
    Option (Store × List String)
  | [] => some (s, [])
  | (text, md, genSuffix) :: rest =>
    let (documentId, s1) := addDocument s now text md "" genSuffix
    if documentId = "" then none
    else (addAllDocs now s1 rest).map (fun p => (p.1, documentId :: p.2))

/-- VectorSearch::addDocuments - one transaction around the storage writes;
embeddings are batched; on any failure the transaction is rolled back and
the ANN index and mapping are untouched. -/
def coordAddDocuments (embed : String → List ℚ) (c : Coord) (now : Nat)
    (items : List (String × List (String × String) × String)) : Coord :=
  match addAllDocs now c.store items with
  | none => c
  | some (s1, documentIds) =>
    let embeddings := items.map (fun it => embed it.1)
    if embeddings.length ≠ items.length then c
    else
      { store := s1, annCount := c.annCount + embeddings.length,
        mapping := c.mapping ++ documentIds }

/-- VectorSearch::updateDocument - persist the update; on success rebuild. -/
def coordUpdateDocument (embed : String → List ℚ) (c : Coord) (now : Nat)
    (id text : String) (md : List (String × String)) : Bool × Coord :=
  let (ok, s1) := updateDocument c.store now id text md
  if ok then (true, rebuildIndex embed { c with store := s1 })
  else (false, { c with store := s1 })

/-- VectorSearch::deleteDocument - persist the delete; on success rebuild. -/
def coordDeleteDocument (embed : String → List ℚ) (c : Coord) (id : String) :
    Bool × Coord :=
  let (ok, s1) := deleteDocument c.store id
  if ok then (true, rebuildIndex embed { c with store := s1 })
  else (false, { c with store := s1 })

/-- Modelled from the spec: the coordinator-level `upsert_document` is called
by the facade (`SearchServer::handleUpsert`) but its definition is not among
the sources; per the specification it persists via `DocumentStore.upsert`,
rebuilds, and returns success iff persistence succeeded. -/
def coordUpsertDocument (embed : String → List ℚ) (c : Coord) (now : Nat)
    (id text : String) (md : List (String × String)) : Bool × Coord :=
  let (ok, s1) := upsertDocument c.store now id text md
  if ok then (true, rebuildIndex embed { c with store := s1 })
  else (false, { c with store := s1 })

/-- VectorSearch::loadOrCreateIndex with VectorSearch::synchronizeIndex - if
the index file exists it is deserialized (`loaded = some n` with `n` its
vector count), the mapping is rebuilt from `getAllDocumentIds` and a size
mismatch triggers a rebuild; otherwise a fresh empty index is created and
populated by rebuild. -/
def startupLoadOrCreateIndex (embed : String → List ℚ) (s : Store)
    (loaded : Option Nat) : Coord :=
  match loaded with
  | some n =>
    let c : Coord := { store := s, annCount := n, mapping := getAllDocumentIds s }
    if n = c.mapping.length then c else rebuildIndex embed c
  | none => rebuildIndex embed { store := s, annCount := 0, mapping := [] }

/-- Distance-to-score conversion: `score = 1 / (1 + distance)`. -/
def scoreOf (dist : ℚ) : ℚ :=
  1 / (1 + dist)

/-- VectorSearch::buildSearchResult - fetch the document by id and pair it
with the score. -/
def buildSearchResult (s : Store) (documentId : String) (score : ℚ) :
    SearchResult :=
  let doc := getDocument s documentId
  ⟨doc.id, doc.text, score, doc.metadata⟩

/-- The materialization loop of `VectorSearch::searchEmbedding`: for each ANN
hit keep it only when its position is in `[0, |mapping|)` and its score meets
the threshold, fetching the document by the mapped id. -/
def processHits (s : Store) (mapping : List String) (threshold : ℚ) :
    List (Int × ℚ) → List SearchResult
  | [] => []
  | (pos, dist) :: rest =>
    if 0 ≤ pos ∧ pos < (mapping.length : Int) then
      let score := scoreOf dist
      if threshold ≤ score then
        buildSearchResult s (mapping.getD pos.toNat "") score ::
          processHits s mapping threshold rest
      else processHits s mapping threshold rest
    else processHits s mapping threshold rest

/-- VectorSearch::searchEmbedding - empty index returns the empty list;
otherwise `k` is clamped to the vector count (`k = min(k, index->ntotal)`),
the ANN query is issued for that many neighbors (`ann` is an oracle standing
for the FAISS `index->search` call: it returns the `(position, distance)`
pairs filling arrays of the requested size) and the hits are materialized. -/
def searchEmbedding (s : Store) (mapping : List String) (annTotal k : Nat)
    (threshold : ℚ) (ann : Nat → List (Int × ℚ)) : List SearchResult :=
  if annTotal = 0 then []
  else processHits s mapping threshold (ann (min k annTotal))

/-! ## HTTP facade (src/server/src/server.cpp) -/

/-- SearchServer::handleInsert result status: inserting via the coordinator,
an empty returned id (custom-id collision or storage/embedding failure)
reports HTTP 500, otherwise 200 with the id. -/
def handleInsert (embed : String → List ℚ) (c : Coord) (now : Nat)
    (text : String) (md : List (String × String)) (customId genSuffix : String) :
    Nat × String × Coord :=
  let (documentId, c1) := coordAddDocument embed c now text md customId genSuffix
  if documentId = "" then (500, "", c1) else (200, documentId, c1)

/-- SearchServer::handleSearch, `type = "text"` branch: substring search over
the store, first `k` rows, each given score 1.0 and kept only when that
score meets the threshold. -/
def textSearchResults (s : Store) (q : String) (k : Nat) (threshold : ℚ) :
    List SearchResult :=
  ((searchDocuments s q).take k).filterMap (fun d =>
    if threshold ≤ (1 : ℚ) then some ⟨d.id, d.text, 1, d.metadata⟩ else none)

/-! ## Inference Engine (src/server/src/inference.cpp)

`meanPoolL2Norm` receives the transformer's hidden states `[B, S, H]` and the
attention mask `[B, S]` of 64-bit integers; a position participates when its
mask entry is truthy (non-zero in C).  Arithmetic is modelled over the reals.
The batch row index `b` is a plain parameter: every definition below is per
row, matching the per-`b` loop body. -/

/-- Accumulated sum of hidden states over positions the mask marks non-zero
(the `out[b*H+h] += row[h]` loop). -/
noncomputable def maskedSum (lastHidden : Nat → Nat → Nat → ℝ)
    (mask : Nat → Nat → Int) (S b h : Nat) : ℝ :=
  ∑ t ∈ Finset.range S, if mask b t ≠ 0 then lastHidden b t h else 0

/-- Accumulated count of positions the mask marks non-zero (the
`count += 1.f` line). -/
noncomputable def maskedCount (mask : Nat → Nat → Int) (S b : Nat) : ℝ :=
  ∑ t ∈ Finset.range S, if mask b t ≠ 0 then (1 : ℝ) else 0

/-- The pooled vector after the `if (count > 0.f)` division: mean over masked
positions, or the raw (zero) accumulator when no position is masked. -/
noncomputable def pooled (lastHidden : Nat → Nat → Nat → ℝ)
    (mask : Nat → Nat → Int) (S b h : Nat) : ℝ :=
  if 0 < maskedCount mask S b then
    maskedSum lastHidden mask S b h / maskedCount mask S b
  else maskedSum lastHidden mask S b h

/-- The L2 norm the code computes over the pooled row (`norm += out*out`,
then `sqrt`). -/
noncomputable def poolNorm (lastHidden : Nat → Nat → Nat → ℝ)
    (mask : Nat → Nat → Int) (S H b : Nat) : ℝ :=
  Real.sqrt (∑ h ∈ Finset.range H, (pooled lastHidden mask S b h) ^ 2)

/-- InferenceEngine::meanPoolL2Norm, row `b`, component `h`: the pooled value
divided by `sqrt(norm) + 1e-12`. -/
noncomputable def meanPoolL2Norm (lastHidden : Nat → Nat → Nat → ℝ)
    (mask : Nat → Nat → Int) (S H b h : Nat) : ℝ :=
  pooled lastHidden mask S b h /
    (poolNorm lastHidden mask S H b + 1e-12)

/-- Modelled from the spec: the number of positions `t` with
`attention_mask[b, t] == 1`. -/
def maskedOnes (mask : Nat → Nat → Int) (S b : Nat) : Nat :=
  ((Finset.range S).filter (fun t => mask b t = 1)).card

/-- Modelled from the spec: the masked mean - sum of `last_hidden[b, t, :]`
over positions where the mask is 1, divided by the count of such positions,
the zero vector when the count is 0. -/
noncomputable def specMaskedMean (lastHidden : Nat → Nat → Nat → ℝ)
    (mask : Nat → Nat → Int) (S b h : Nat) : ℝ :=
  if maskedOnes mask S b = 0 then 0
  else (∑ t ∈ Finset.range S, if mask b t = 1 then lastHidden b t h else 0) /
    (maskedOnes mask S b : ℝ)

/-- Modelled from the spec: the embedding `v / (‖v‖₂ + 1e-12)` where `v` is
the masked mean. -/
noncomputable def specEmbedding (lastHidden : Nat → Nat → Nat → ℝ)
    (mask : Nat → Nat → Int) (S H b h : Nat) : ℝ :=
  specMaskedMean lastHidden mask S b h /
    (Real.sqrt (∑ x ∈ Finset.range H, (specMaskedMean lastHidden mask S b x) ^ 2)
      + 1e-12)

/-! ## Cosine similarity helper (InferenceEngine::cosineSimMatrix)

Dot products only, so this part is modelled over the rationals. -/

/-- Element of the flattened embedding buffer (out-of-range reads yield 0). -/
def flatAt (flat : List ℚ) (i : Nat) : ℚ :=
  flat.getD i 0

/-- One entry of the cosine-similarity matrix: the inner dot-product loop
over `h`, reading rows `i` and `j` of the flattened buffer. -/
def cosineEntry (embs : List (List ℚ)) (i j : Nat) : ℚ :=
  let H := (embs.headD []).length
  let flat := embs.flatten
  ∑ h ∈ Finset.range H, flatAt flat (i * H + h) * flatAt flat (j * H + h)

/-- InferenceEngine::cosineSimMatrix - the row-major `B × B` buffer `M` with
`M[i*B+j]` the dot product of embeddings `i` and `j`; empty input returns the
empty buffer. -/
def cosineSimMatrix (embs : List (List ℚ)) : List ℚ :=
  if embs.isEmpty then []
  else
    let B := embs.length
    (List.range (B * B)).map (fun n => cosineEntry embs (n / B) (n % B))

/-- Mathematical dot product of two vectors, the spec's `E · Eᵀ` entry. -/
def dotQ (a b : List ℚ) : ℚ :=
  (List.zipWith (· * ·) a b).sum

/-! ## Mutation sequences (for the synchronization invariant I1)

A public mutation with its call-time inputs: the timestamp, the request body
and the oracles (random id suffixes; embedding success is visible through
`embed` returning the empty list). -/

/-- One public mutation of the coordinator. -/
inductive MutOp where
  | add (now : Nat) (text : String) (md : List (String × String))
      (customId genSuffix : String)
  | addBatch (now : Nat)
      (items : List (String × List (String × String) × String))
  | upsert (now : Nat) (id text : String) (md : List (String × String))
  | update (now : Nat) (id text : String) (md : List (String × String))
  | del (id : String)

/-- Execute one public mutation on the coordinator state. -/
def execOp (embed : String → List ℚ) (c : Coord) : MutOp → Coord
  | .add now text md customId genSuffix =>
    (coordAddDocument embed c now text md customId genSuffix).2
  | .addBatch now items => coordAddDocuments embed c now items
  | .upsert now id text md => (coordUpsertDocument embed c now id text md).2
  | .update now id text md => (coordUpdateDocument embed c now id text md).2
  | .del id => (coordDeleteDocument embed c id).2

/-- Execute a sequence of public mutations. -/
def execOps (embed : String → List ℚ) (c : Coord) (ops : List MutOp) : Coord :=
  ops.foldl (execOp embed) c

/-- Invariant I1: the position-to-id mapping, the ANN index's vector count
and the Document Store's document count agree. -/
def countsAgree (c : Coord) : Prop :=
  c.mapping.length = c.annCount ∧ c.annCount = getDocumentCount c.store

/-! # Theorems -/

/-! ## Sorting facts -/

theorem length_insertBy (le : α → α → Bool) (x : α) (l : List α) :
    (insertBy le x l).length = l.length + 1 := by
  induction l with
  | nil => rfl
  | cons y ys ih =>
    simp only [insertBy]
    by_cases h : le x y = true
    · simp [h]
    · simp [h, ih]

theorem length_sortBy (le : α → α → Bool) (l : List α) :
    (sortBy le l).length = l.length := by
  induction l with
  | nil => rfl
  | cons y ys ih =>
    show (insertBy le y (sortBy le ys)).length = ys.length + 1
    rw [length_insertBy, ih]

theorem mem_insertBy (le : α → α → Bool) (x a : α) (l : List α) :
    a ∈ insertBy le x l ↔ a = x ∨ a ∈ l := by
  induction l with
  | nil => simp [insertBy]
  | cons y ys ih =>
    simp only [insertBy]
    by_cases h : le x y = true
    · simp [h]
    · simp [h, ih]
      tauto

theorem mem_sortBy (le : α → α → Bool) (a : α) (l : List α) :
    a ∈ sortBy le l ↔ a ∈ l := by
  induction l with
  | nil => simp [sortBy]
  | cons y ys ih =>
    simp only [sortBy, List.foldr] at *
    rw [mem_insertBy, ih]
    simp

theorem pairwise_insertBy (le : α → α → Bool)
    (htrans : ∀ a b c, le a b = true → le b c = true → le a c = true)
    (htotal : ∀ a b, le a b = true ∨ le b a = true)
    (x : α) (l : List α) (h : l.Pairwise (fun a b => le a b = true)) :
    (insertBy le x l).Pairwise (fun a b => le a b = true) := by
  induction l with
  | nil => simp [insertBy]
  | cons y ys ih =>
    rcases List.pairwise_cons.mp h with ⟨hy, hys⟩
    simp only [insertBy]
    by_cases hxy : le x y = true
    · rw [if_pos hxy]
      refine List.pairwise_cons.mpr ⟨?_, h⟩
      intro z hz
      rcases List.mem_cons.mp hz with rfl | hz
      · exact hxy
      · exact htrans x y z hxy (hy z hz)
    · rw [if_neg hxy]
      refine List.pairwise_cons.mpr ⟨?_, ih hys⟩
      intro z hz
      rcases (mem_insertBy le x z ys).mp hz with hzx | hz
      · rw [hzx]
        rcases htotal x y with hx | hx
        · exact absurd hx hxy
        · exact hx
      · exact hy z hz

theorem pairwise_sortBy (le : α → α → Bool)
    (htrans : ∀ a b c, le a b = true → le b c = true → le a c = true)
    (htotal : ∀ a b, le a b = true ∨ le b a = true)
    (l : List α) :
    (sortBy le l).Pairwise (fun a b => le a b = true) := by
  induction l with
  | nil => simp [sortBy]
  | cons y ys ih => exact pairwise_insertBy le htrans htotal y _ ih

theorem sortBy_eq_of_pairwise (le : α → α → Bool) (l : List α)
    (h : l.Pairwise (fun a b => le a b = true)) :
    sortBy le l = l := by
  induction l with
  | nil => rfl
  | cons y ys ih =>
    rcases List.pairwise_cons.mp h with ⟨hy, hys⟩
    have hrec : sortBy le ys = ys := ih hys
    show insertBy le y (sortBy le ys) = y :: ys
    rw [hrec]
    cases ys with
    | nil => rfl
    | cons z zs =>
      have : le y z = true := hy z (by simp)
      simp [insertBy, this]

theorem leChars_trans (a b c : List Char) (hab : leChars a b = true)
    (hbc : leChars b c = true) : leChars a c = true := by
  induction a generalizing b c with
  | nil => cases c <;> simp [leChars]
  | cons x xs ih =>
    cases b with
    | nil => simp [leChars] at hab
    | cons y ys =>
      cases c with
      | nil => simp [leChars] at hbc
      | cons z zs =>
        simp only [leChars] at *
        by_cases hxy : x = y
        · subst hxy
          by_cases hyz : x = z
          · subst hyz
            simp_all
            exact ih ys zs hab hbc
          · simp_all
        · by_cases hyz : y = z
          · subst hyz
            simp_all
          · simp only [hxy, if_false] at hab
            simp only [hyz, if_false] at hbc
            have hlt : x < z := lt_trans (by simpa using hab) (by simpa using hbc)
            have hne : ¬ x = z := ne_of_lt hlt
            simp [hne, hlt]

theorem leChars_total (a b : List Char) :
    leChars a b = true ∨ leChars b a = true := by
  induction a generalizing b with
  | nil => left; simp [leChars]
  | cons x xs ih =>
    cases b with
    | nil => right; simp [leChars]
    | cons y ys =>
      simp only [leChars]
      by_cases hxy : x = y
      · subst hxy
        simpa using ih ys
      · have hne2 : ¬ y = x := fun h => hxy h.symm
        rcases lt_or_gt_of_ne (show x ≠ y from hxy) with h | h
        · left; simp [hxy, h]
        · right; simp [hne2, h]

theorem leStr_trans (a b c : String) (hab : leStr a b = true)
    (hbc : leStr b c = true) : leStr a c = true :=
  leChars_trans a.toList b.toList c.toList hab hbc

theorem leStr_total (a b : String) : leStr a b = true ∨ leStr b a = true :=
  leChars_total a.toList b.toList

/-! ## Error handling: id collision (C4) and unknown-id mutations (C6) -/

/-- C4: for every store state and every user-supplied custom id naming a live
document, the insert fails with the empty id, leaves the coordinator state -
in particular the document and metadata tables - unchanged, and the HTTP
insert handler reports status 500. -/
theorem c4_custom_id_collision (embed : String → List ℚ) (c : Coord)
    (now : Nat) (text : String) (md : List (String × String))
    (customId genSuffix : String) (hne : customId ≠ "")
    (hex : documentExists c.store customId = true) :
    handleInsert embed c now text md customId genSuffix = (500, "", c) := by
  unfold handleInsert coordAddDocument addDocument
  simp [hne, hex]

/-- Witness for C4 at a concrete colliding insert. -/
theorem c4_witness :
    handleInsert (fun _ => [1]) ⟨⟨[⟨"k", "t", 0, 0⟩], []⟩, 1, ["k"]⟩ 7 "new text"
        [] "k" "r4nd0m" = (500, "", ⟨⟨[⟨"k", "t", 0, 0⟩], []⟩, 1, ["k"]⟩) :=
  c4_custom_id_collision (fun _ => [1]) ⟨⟨[⟨"k", "t", 0, 0⟩], []⟩, 1, ["k"]⟩ 7
    "new text" [] "k" "r4nd0m" (by decide) (by decide)

/-- C6: update_document and delete_document on an id that names no live
document return false and change nothing: the store (both tables), the ANN
index count and the mapping are all untouched, and no rebuild runs. -/
theorem c6_unknown_id_noop (embed : String → List ℚ) (c : Coord) (now : Nat)
    (id text : String) (md : List (String × String))
    (hmiss : documentExists c.store id = false) :
    coordUpdateDocument embed c now id text md = (false, c) ∧
    coordDeleteDocument embed c id = (false, c) := by
  constructor
  · unfold coordUpdateDocument updateDocument
    simp [hmiss]
  · unfold coordDeleteDocument deleteDocument
    simp [hmiss]

/-- Witness for C6 at a concrete unknown id. -/
theorem c6_witness :
    coordUpdateDocument (fun _ => [1]) ⟨⟨[⟨"k", "t", 0, 0⟩], []⟩, 1, ["k"]⟩ 9
        "z" "newt" [] = (false, ⟨⟨[⟨"k", "t", 0, 0⟩], []⟩, 1, ["k"]⟩) ∧
    coordDeleteDocument (fun _ => [1]) ⟨⟨[⟨"k", "t", 0, 0⟩], []⟩, 1, ["k"]⟩
        "z" = (false, ⟨⟨[⟨"k", "t", 0, 0⟩], []⟩, 1, ["k"]⟩) :=
  c6_unknown_id_noop (fun _ => [1]) ⟨⟨[⟨"k", "t", 0, 0⟩], []⟩, 1, ["k"]⟩ 9
    "z" "newt" [] (by decide)

/-! ## Semantic search materialization (C3, C9) -/

/-- The materialization loop keeps exactly the hits with an in-range
position and a score meeting the threshold, in emitted order. -/
theorem processHits_characterization (s : Store) (mapping : List String)
    (threshold : ℚ) (hits : List (Int × ℚ)) :
    processHits s mapping threshold hits =
      (hits.filter (fun hit => decide (0 ≤ hit.1) &&
          decide (hit.1 < (mapping.length : Int)) &&
          decide (threshold ≤ scoreOf hit.2))).map
        (fun hit => buildSearchResult s (mapping.getD hit.1.toNat "")
          (scoreOf hit.2)) := by
  induction hits with
  | nil => rfl
  | cons hit rest ih =>
    obtain ⟨pos, dist⟩ := hit
    simp only [processHits]
    by_cases h1 : 0 ≤ pos ∧ pos < (mapping.length : Int)
    · rw [if_pos h1]
      by_cases h2 : threshold ≤ scoreOf dist
      · rw [if_pos h2]
        simp [List.filter_cons, h1.1, h1.2, h2, ih]
      · rw [if_neg h2]
        simp [List.filter_cons, h2, ih]
    · rw [if_neg h1]
      rw [Decidable.not_and_iff_or_not] at h1
      rcases h1 with h1 | h1
      · simp [List.filter_cons, h1, ih]
      · simp [List.filter_cons, h1, ih]

/-- C3: for every query, k, threshold and efSearch (query and efSearch only
influence the ANN oracle), a search on a non-empty index materializes a
result exactly for the ANN hits with `0 ≤ pos < |mapping|` whose score
`1/(1+dist)` meets the threshold, carrying that score and the document
fetched by the mapped id, in the order the ANN index emitted them. -/
theorem c3_search_materialization (s : Store) (mapping : List String)
    (annTotal k : Nat) (threshold : ℚ) (ann : Nat → List (Int × ℚ))
    (hne : annTotal ≠ 0) :
    searchEmbedding s mapping annTotal k threshold ann =
      ((ann (min k annTotal)).filter (fun hit => decide (0 ≤ hit.1) &&
          decide (hit.1 < (mapping.length : Int)) &&
          decide (threshold ≤ scoreOf hit.2))).map
        (fun hit => buildSearchResult s (mapping.getD hit.1.toNat "")
          (scoreOf hit.2)) := by
  unfold searchEmbedding
  rw [if_neg hne]
  exact processHits_characterization s mapping threshold (ann (min k annTotal))

/-- Witness for C3 on a concrete non-empty index. -/
theorem c3_witness :
    searchEmbedding ⟨[], []⟩ [] 1 0 0 (fun _ => []) = [] :=
  (c3_search_materialization ⟨[], []⟩ [] 1 0 0 (fun _ => []) (by decide)).trans
    (by simp)

/-- C9: semantic search on an index holding zero vectors returns the empty
list, and since k is clamped to the vector count before the ANN query (whose
result arrays have exactly the requested length), the number of results is
at most `min k annTotal`. -/
theorem c9_empty_and_clamped (s : Store) (mapping : List String) (k : Nat)
    (threshold : ℚ) (ann : Nat → List (Int × ℚ)) :
    searchEmbedding s mapping 0 k threshold ann = [] ∧
    ∀ annTotal, (∀ m, (ann m).length = m) →
      (searchEmbedding s mapping annTotal k threshold ann).length ≤
        min k annTotal := by
  constructor
  · rfl
  · intro annTotal hann
    by_cases hn : annTotal = 0
    · subst hn
      simp [searchEmbedding]
    · unfold searchEmbedding
      rw [if_neg hn, processHits_characterization, List.length_map]
      calc ((ann (min k annTotal)).filter _).length
          ≤ (ann (min k annTotal)).length := List.length_filter_le _ _
        _ = min k annTotal := hann _

/-- Witness for C9 on a concrete index of two vectors queried with k = 3. -/
theorem c9_witness :
    searchEmbedding ⟨[], []⟩ [] 0 3 0
        (fun m => List.replicate m ((0 : Int), (0 : ℚ))) = [] ∧
    (searchEmbedding ⟨[], []⟩ [] 2 3 0
        (fun m => List.replicate m ((0 : Int), (0 : ℚ)))).length ≤ min 3 2 :=
  ⟨(c9_empty_and_clamped ⟨[], []⟩ [] 3 0
      (fun m => List.replicate m ((0 : Int), (0 : ℚ)))).1,
    (c9_empty_and_clamped ⟨[], []⟩ [] 3 0
      (fun m => List.replicate m ((0 : Int), (0 : ℚ)))).2 2 (by simp)⟩

/-! ## Substring text search (C7)

The store's `searchDocuments` runs SQL `LIKE '%q%'`, which is not literal
substring containment: `%` and `_` inside the query act as wildcards and
ASCII letters match case-insensitively.  The claim as stated (exactly the
documents containing `q` as a substring) therefore fails; the faithful
statement replaces containment by the LIKE test. -/

/-- Counterexample to C7 as stated: on a store holding the single document
`("d1", "ab")`, the query `"_"` returns that document although `"ab"` does
not contain `"_"` as a substring (SQLite treats `_` as a one-character
wildcard). -/
theorem c7_counterexample :
    searchDocuments ⟨[⟨"d1", "ab", 0, 0⟩], []⟩ "_" =
      [⟨"d1", "ab", []⟩] ∧
    containsSub "_" "ab" = false := by
  constructor
  · decide
  · decide

/-- A filterMap whose function always succeeds is a map. -/
theorem filterMap_some_eq_map (f : α → β) (l : List α) :
    l.filterMap (fun d => some (f d)) = l.map f := by
  induction l with
  | nil => rfl
  | cons x xs ih => simp [List.filterMap_cons, ih]

/-- C7 amended: `search_substring(q)` returns exactly the documents whose
text matches the SQL pattern `%q%` under SQLite LIKE semantics (ASCII
case-insensitive, `%`/`_` wildcards), ordered by id; the HTTP text-search
branch takes the first k of them, gives each score 1.0 and keeps them
exactly when 1.0 meets the threshold. -/
theorem c7_like_search (s : Store) (q : String) :
    (∀ d, d ∈ searchDocuments s q ↔
      ∃ r ∈ s.docs, likeQuery q r.text = true ∧
        d = ⟨r.id, r.text, getMetadata s r.id⟩) ∧
    (searchDocuments s q).Pairwise (fun a b => leStr a.id b.id = true) ∧
    (∀ k threshold, textSearchResults s q k threshold =
      if threshold ≤ (1 : ℚ) then
        ((searchDocuments s q).take k).map
          (fun d => ⟨d.id, d.text, 1, d.metadata⟩)
      else []) := by
  refine ⟨?_, ?_, ?_⟩
  · intro d
    unfold searchDocuments
    rw [List.mem_map]
    constructor
    · rintro ⟨r, hr, rfl⟩
      rw [mem_sortBy, List.mem_filter] at hr
      exact ⟨r, hr.1, hr.2, rfl⟩
    · rintro ⟨r, hr, hlike, rfl⟩
      refine ⟨r, ?_, rfl⟩
      rw [mem_sortBy, List.mem_filter]
      exact ⟨hr, hlike⟩
  · unfold searchDocuments
    have hs := pairwise_sortBy (fun a b : DocRow => leStr a.id b.id)
      (fun a b c hab hbc => leStr_trans a.id b.id c.id hab hbc)
      (fun a b => leStr_total a.id b.id)
      (s.docs.filter (fun d => likeQuery q d.text))
    exact List.Pairwise.map _ (fun a b h => h) hs
  · intro k threshold
    unfold textSearchResults
    by_cases hthr : threshold ≤ (1 : ℚ)
    · rw [if_pos hthr]
      simp only [hthr, if_pos]
      rw [filterMap_some_eq_map, List.map_take]
    · rw [if_neg hthr]
      simp [hthr]


/-! ## Upsert semantics (C5) -/

/-- Unfolding step of a document's metadata-row extraction. -/
theorem metaFor_cons (r : MetaRow) (rest : List MetaRow) (id : String) :
    metaFor (r :: rest) id =
      if r.docId == id then (r.key, r.value) :: metaFor rest id
      else metaFor rest id := by
  unfold metaFor
  rw [List.filterMap_cons]
  by_cases h : (r.docId == id) = true
  · simp [h]
  · simp [h]

/-- Metadata-row extraction distributes over table append. -/
theorem metaFor_append (l1 l2 : List MetaRow) (id : String) :
    metaFor (l1 ++ l2) id = metaFor l1 id ++ metaFor l2 id := by
  unfold metaFor
  exact List.filterMap_append _ _ _

/-- After deleting a document's metadata rows, none remain for it. -/
theorem metaFor_filter_docId (meta : List MetaRow) (id : String) :
    metaFor (meta.filter (fun r => !(r.docId == id))) id = [] := by
  induction meta with
  | nil => rfl
  | cons r rest ih =>
    rw [List.filter_cons]
    by_cases h : (r.docId == id) = true
    · simp only [h, Bool.not_true, if_false]
      exact ih
    · have h2 : (r.docId == id) = false := by
        cases hb : (r.docId == id) <;> simp_all
      simp only [h2, Bool.not_false, if_true, metaFor_cons, if_false]
      exact ih

/-- Replacing the `(id, k)` row drops exactly the key-`k` entry from the
document's metadata rows. -/
theorem metaFor_filter_key (meta : List MetaRow) (id k : String) :
    metaFor (meta.filter (fun r => !(r.docId == id && r.key == k))) id =
      (metaFor meta id).filter (fun kv => !(kv.1 == k)) := by
  induction meta with
  | nil => rfl
  | cons r rest ih =>
    rw [List.filter_cons, metaFor_cons]
    simp only [Bool.not_and] at ih
    by_cases hd : (r.docId == id) = true
    · by_cases hk : (r.key == k) = true
      · simp [hd, hk, List.filter_cons, metaFor_cons, ih]
      · have hk2 : (r.key == k) = false := by simpa using hk
        simp [hd, hk2, List.filter_cons, metaFor_cons, ih]
    · have hd2 : (r.docId == id) = false := by simpa using hd
      simp [hd2, List.filter_cons, metaFor_cons, ih]

/-- Effect of one `INSERT OR REPLACE` metadata row on a document's rows. -/
theorem metaFor_addMetadataRow (meta : List MetaRow) (id k v : String) :
    metaFor (addMetadataRow meta id k v) id =
      (metaFor meta id).filter (fun kv => !(kv.1 == k)) ++ [(k, v)] := by
  unfold addMetadataRow
  rw [metaFor_append, metaFor_filter_key, metaFor_cons]
  simp [metaFor]

/-- Inserting a key-distinct metadata map appends it to the document's rows. -/
theorem metaFor_insertMetaRows (id : String) (md : List (String × String)) :
    ∀ (meta : List MetaRow) (done : List (String × String)),
      metaFor meta id = done →
      (∀ kv ∈ md, kv.1 ∉ done.map Prod.fst) →
      (md.map Prod.fst).Nodup →
      metaFor (insertMetaRows meta id md) id = done ++ md := by
  induction md with
  | nil =>
    intro meta done hdone _ _
    simpa [insertMetaRows] using hdone
  | cons kv rest ih =>
    intro meta done hdone hdisj hnodup
    obtain ⟨k, v⟩ := kv
    have hknotrest : k ∉ rest.map Prod.fst := by
      have := hnodup
      simp only [List.map_cons, List.nodup_cons] at this
      exact this.1
    have hstep : metaFor (addMetadataRow meta id k v) id = done ++ [(k, v)] := by
      rw [metaFor_addMetadataRow, hdone]
      congr 1
      apply List.filter_eq_self.mpr
      intro a ha
      have hmem : a.1 ∈ done.map Prod.fst := List.mem_map_of_mem Prod.fst ha
      have hne : a.1 ≠ k := by
        intro hak
        exact hdisj (k, v) (by simp) (hak ▸ hmem)
      simpa using hne
    have hrest : metaFor (insertMetaRows (addMetadataRow meta id k v) id rest) id
        = (done ++ [(k, v)]) ++ rest := by
      apply ih (addMetadataRow meta id k v) (done ++ [(k, v)]) hstep
      · intro kv2 hkv2
        rw [List.map_append, List.mem_append]
        rintro (hin | hin)
        · exact hdisj kv2 (by simp [hkv2]) hin
        · simp only [List.map_cons, List.map_nil, List.mem_singleton] at hin
          exact hknotrest (hin ▸ List.mem_map_of_mem Prod.fst hkv2)
      · have := hnodup
        simp only [List.map_cons, List.nodup_cons] at this
        exact this.2
    calc metaFor (insertMetaRows meta id ((k, v) :: rest)) id
        = metaFor (insertMetaRows (addMetadataRow meta id k v) id rest) id := rfl
      _ = (done ++ [(k, v)]) ++ rest := hrest
      _ = done ++ ((k, v) :: rest) := by simp

/-- Looking up `id` after filtering it out and appending a fresh row finds
exactly the fresh row. -/
theorem find?_filter_append (l : List DocRow) (id : String) (row : DocRow)
    (hrow : (row.id == id) = true) :
    ((l.filter (fun d => !(d.id == id)) ++ [row]).find?
      (fun d => d.id == id)) = some row := by
  induction l with
  | nil => simp [List.find?, hrow]
  | cons x xs ih =>
    rw [List.filter_cons]
    by_cases hx : (x.id == id) = true
    · simp only [hx, Bool.not_true, if_false]
      exact ih
    · have hx2 : (x.id == id) = false := by
        cases hb : (x.id == id) <;> simp_all
      simp only [hx2, Bool.not_false, if_true, List.cons_append, List.find?]
      exact ih

/-- C5: upsert succeeds as insert-or-replace - it returns true, preserves
`created_at` whenever a row with the id existed, leaves the document's
metadata exactly the supplied map (old entries wholly removed), and a
subsequent get returns the new text and metadata.  The supplied map is
key-sorted and key-distinct, as a `std::map` is. -/
theorem c5_upsert_replaces (s : Store) (now : Nat) (id text : String)
    (md : List (String × String))
    (hsorted : md.Pairwise (fun a b => leStr a.1 b.1 = true))
    (hnodup : (md.map Prod.fst).Nodup) :
    (upsertDocument s now id text md).1 = true ∧
    (∀ d0, s.docs.find? (fun d => d.id == id) = some d0 →
      (upsertDocument s now id text md).2.docs.find? (fun d => d.id == id) =
        some ⟨id, text, d0.createdAt, now⟩) ∧
    getMetadata (upsertDocument s now id text md).2 id = md ∧
    getDocument (upsertDocument s now id text md).2 id = ⟨id, text, md⟩ := by
  have hmeta : metaFor (upsertDocument s now id text md).2.meta id = md := by
    have h0 := metaFor_filter_docId s.meta id
    have h1 := metaFor_insertMetaRows id md
      (s.meta.filter (fun r => !(r.docId == id))) [] h0 (by simp) hnodup
    simpa [upsertDocument] using h1
  have hGetMeta : getMetadata (upsertDocument s now id text md).2 id = md := by
    unfold getMetadata
    rw [hmeta]
    exact sortBy_eq_of_pairwise _ md hsorted
  have hfind2 : (upsertDocument s now id text md).2.docs.find?
      (fun d => d.id == id) = some ⟨id, text,
        (match s.docs.find? (fun d => d.id == id) with
          | some d => d.createdAt
          | none => now), now⟩ := by
    unfold upsertDocument
    exact find?_filter_append s.docs id _ (by simp)
  refine ⟨rfl, ?_, hGetMeta, ?_⟩
  · intro d0 hfind
    rw [hfind2, hfind]
  · unfold getDocument
    rw [hfind2]
    simpa using hGetMeta

/-- Witness for C5 on a concrete store where the id already exists. -/
theorem c5_witness :
    (upsertDocument ⟨[⟨"k", "old", 5, 5⟩], [⟨"k", "z", "0"⟩]⟩ 9 "k" "new"
      [("a", "1"), ("b", "2")]).1 = true ∧
    (upsertDocument ⟨[⟨"k", "old", 5, 5⟩], [⟨"k", "z", "0"⟩]⟩ 9 "k" "new"
      [("a", "1"), ("b", "2")]).2.docs.find? (fun d => d.id == "k") =
        some ⟨"k", "new", 5, 9⟩ ∧
    getMetadata (upsertDocument ⟨[⟨"k", "old", 5, 5⟩], [⟨"k", "z", "0"⟩]⟩ 9 "k"
      "new" [("a", "1"), ("b", "2")]).2 "k" = [("a", "1"), ("b", "2")] ∧
    getDocument (upsertDocument ⟨[⟨"k", "old", 5, 5⟩], [⟨"k", "z", "0"⟩]⟩ 9 "k"
      "new" [("a", "1"), ("b", "2")]).2 "k" =
        ⟨"k", "new", [("a", "1"), ("b", "2")]⟩ := by
  have h := c5_upsert_replaces ⟨[⟨"k", "old", 5, 5⟩], [⟨"k", "z", "0"⟩]⟩ 9 "k"
    "new" [("a", "1"), ("b", "2")] (by decide) (by decide)
  exact ⟨h.1, h.2.1 ⟨"k", "old", 5, 5⟩ (by decide), h.2.2.1, h.2.2.2⟩

/-! ## Synchronization invariant I1 (C1) -/

/-- A generated id is never the empty string (it begins with `"doc_"`). -/
theorem generatedId_ne_empty (suffix : String) : generatedId suffix ≠ "" := by
  intro h
  have hdata := congrArg String.data h
  simp [generatedId] at hdata

/-- Filtering out an id that no row carries keeps every row. -/
theorem filter_not_id_eq_self (s : Store) (id : String)
    (hmiss : documentExists s id = false) :
    s.docs.filter (fun d => !(d.id == id)) = s.docs := by
  apply List.filter_eq_self.mpr
  intro d hd
  have : (d.id == id) = false := by
    by_contra hne
    have : (d.id == id) = true := by
      cases hb : (d.id == id) <;> simp_all
    have : documentExists s id = true := by
      unfold documentExists
      rw [List.any_eq_true]
      exact ⟨d, hd, this⟩
    simp_all
  simp [this]

/-- Exhaustive description of `Storage::addDocument`: it either fails with
the empty id and an unchanged store, or returns a fresh id (absent before)
and appends exactly one document row. -/
theorem addDocument_cases (s : Store) (now : Nat) (text : String)
    (md : List (String × String)) (customId genSuffix : String) :
    ((addDocument s now text md customId genSuffix).1 = "" ∧
      (addDocument s now text md customId genSuffix).2 = s) ∨
    ((addDocument s now text md customId genSuffix).1 ≠ "" ∧
      documentExists s (addDocument s now text md customId genSuffix).1 = false ∧
      (addDocument s now text md customId genSuffix).2.docs =
        s.docs ++ [⟨(addDocument s now text md customId genSuffix).1,
          text, now, now⟩]) := by
  unfold addDocument
  by_cases h1 : customId ≠ "" ∧
      documentExists s (if customId = "" then generatedId genSuffix else customId) = true
  · rw [if_pos h1]
    left
    exact ⟨rfl, rfl⟩
  · rw [if_neg h1]
    by_cases h2 : documentExists s
        (if customId = "" then generatedId genSuffix else customId) = true
    · rw [if_pos h2]
      left
      exact ⟨rfl, rfl⟩
    · rw [if_neg h2]
      right
      refine ⟨?_, ?_, rfl⟩
      · by_cases hc : customId = ""
        · simp only [hc, if_pos]
          simpa using generatedId_ne_empty genSuffix
        · simp only [hc, if_neg]
          simpa using hc
      · cases hb : documentExists s
            (if customId = "" then generatedId genSuffix else customId) <;>
          simp_all

/-- A failing `Storage::updateDocument` leaves the store unchanged. -/
theorem updateDocument_fail (s : Store) (now : Nat) (id text : String)
    (md : List (String × String)) (s1 : Store)
    (h : updateDocument s now id text md = (false, s1)) : s1 = s := by
  unfold updateDocument at h
  by_cases hex : ¬ documentExists s id = true
  · rw [if_pos hex] at h
    exact (Prod.mk.injEq _ _ _ _ ▸ h).2.symm
  · rw [if_neg hex] at h
    simp at h

/-- A failing `Storage::deleteDocument` leaves the store unchanged. -/
theorem deleteDocument_fail (s : Store) (id : String) (s1 : Store)
    (h : deleteDocument s id = (false, s1)) : s1 = s := by
  unfold deleteDocument at h
  by_cases hex : documentExists s id = true
  · rw [if_pos hex] at h
    simp at h
  · rw [if_neg hex] at h
    exact (Prod.mk.injEq _ _ _ _ ▸ h).2.symm

/-- The number of rows `getAllDocuments` returns is the document count. -/
theorem getAllDocuments_length (s : Store) :
    (getAllDocuments s).length = s.docs.length := by
  simp [getAllDocuments, length_sortBy]

/-- The number of ids `getAllDocumentIds` returns is the document count. -/
theorem getAllDocumentIds_length (s : Store) :
    (getAllDocumentIds s).length = s.docs.length := by
  simp [getAllDocumentIds, length_sortBy]

/-- A rebuild re-establishes I1 unconditionally. -/
theorem rebuildIndex_counts (embed : String → List ℚ) (c : Coord) :
    countsAgree (rebuildIndex embed c) := by
  unfold rebuildIndex countsAgree getDocumentCount
  by_cases hemp : (getAllDocuments c.store).isEmpty = true
  · rw [if_pos hemp]
    have h0 : (getAllDocuments c.store).length = 0 := by
      rw [List.isEmpty_iff] at hemp
      simp [hemp]
    rw [getAllDocuments_length] at h0
    simp [h0]
  · rw [if_neg hemp]
    simp [getAllDocuments_length]

/-- Startup establishes I1: either the loaded index already matches the
mapping rebuilt from the store (and hence the document count), or a rebuild
runs. -/
theorem startup_counts (embed : String → List ℚ) (s : Store)
    (loaded : Option Nat) :
    countsAgree (startupLoadOrCreateIndex embed s loaded) := by
  cases loaded with
  | none => exact rebuildIndex_counts embed _
  | some n =>
    show countsAgree (if n = (getAllDocumentIds s).length then
      ({ store := s, annCount := n, mapping := getAllDocumentIds s } : Coord)
      else rebuildIndex embed
        { store := s, annCount := n, mapping := getAllDocumentIds s })
    by_cases hn : n = (getAllDocumentIds s).length
    · rw [if_pos hn]
      refine ⟨hn.symm, ?_⟩
      rw [hn, getAllDocumentIds_length]
      rfl
    · rw [if_neg hn]
      exact rebuildIndex_counts embed _

/-- The batch storage loop adds one row per item and returns one id per
item. -/
theorem addAllDocs_facts (now : Nat) :
    ∀ (items : List (String × List (String × String) × String)) (s s1 : Store)
      (ids : List String),
      addAllDocs now s items = some (s1, ids) →
      s1.docs.length = s.docs.length + items.length ∧
        ids.length = items.length := by
  intro items
  induction items with
  | nil =>
    intro s s1 ids h
    simp [addAllDocs] at h
    simp [h.1.symm, h.2.symm]
  | cons it rest ih =>
    intro s s1 ids h
    obtain ⟨text, md, genSuffix⟩ := it
    simp only [addAllDocs] at h
    rcases had : addDocument s now text md "" genSuffix with ⟨aid, sa⟩
    rw [had] at h
    simp only at h
    by_cases haid : aid = ""
    · rw [if_pos haid] at h
      simp at h
    · rw [if_neg haid] at h
      rcases hrec : addAllDocs now sa rest with _ | ⟨sf, restIds⟩
      · rw [hrec] at h
        simp at h
      · rw [hrec] at h
        have h2 : (sf, aid :: restIds) = (s1, ids) := by
          simpa using h
        have hsf : sf = s1 := congrArg Prod.fst h2
        have hids : aid :: restIds = ids := congrArg Prod.snd h2
        have hfacts := ih sa sf restIds hrec
        have hone : sa.docs.length = s.docs.length + 1 := by
          rcases addDocument_cases s now text md "" genSuffix with
            ⟨hfail, _⟩ | ⟨_, _, hdocs⟩
          · rw [had] at hfail
            simp only at hfail
            exact absurd hfail haid
          · rw [had] at hdocs
            simp only at hdocs
            rw [hdocs]
            simp
        subst hsf
        subst hids
        constructor
        · rw [hfacts.1, hone]
          simp only [List.length_cons]
          omega
        · simp [hfacts.2]

/-- Every public mutation preserves I1. -/
theorem execOp_preserves (embed : String → List ℚ) (c : Coord) (op : MutOp)
    (h : countsAgree c) : countsAgree (execOp embed c op) := by
  obtain ⟨hmap, hcnt⟩ := h
  cases op with
  | add now text md customId genSuffix =>
    simp only [execOp, coordAddDocument]
    rcases had : addDocument c.store now text md customId genSuffix with ⟨aid, s1⟩
    simp only
    by_cases haid : aid = ""
    · rw [if_pos haid]
      rcases addDocument_cases c.store now text md customId genSuffix with
        ⟨_, hsame⟩ | ⟨hne, _, _⟩
      · rw [had] at hsame
        simp only at hsame
        exact ⟨hmap, by simpa [getDocumentCount, hsame] using hcnt⟩
      · rw [had] at hne
        simp only at hne
        exact absurd haid hne
    · rw [if_neg haid]
      rcases addDocument_cases c.store now text md customId genSuffix with
        ⟨hfail, _⟩ | ⟨_, hmiss, hdocs⟩
      · rw [had] at hfail
        simp only at hfail
        exact absurd hfail haid
      · rw [had] at hmiss hdocs
        simp only at hmiss hdocs
        by_cases hemb : (embed text).isEmpty = true
        · rw [if_pos hemb]
          have hdel : ((deleteDocument s1 aid).2).docs = c.store.docs := by
            unfold deleteDocument
            have hex1 : documentExists s1 aid = true := by
              unfold documentExists
              rw [List.any_eq_true]
              exact ⟨⟨aid, text, now, now⟩, by rw [hdocs]; simp, by simp⟩
            rw [if_pos hex1]
            simp only
            rw [hdocs, List.filter_append]
            rw [show (c.store.docs.filter (fun d => !(d.id == aid))) =
              c.store.docs from filter_not_id_eq_self c.store aid hmiss]
            simp
          refine ⟨hmap, ?_⟩
          simpa [getDocumentCount, hdel] using hcnt
        · rw [if_neg hemb]
          refine ⟨?_, ?_⟩
          · simp [hmap]
          · simp only [getDocumentCount, hdocs, List.length_append,
              List.length_cons, List.length_nil]
            simp [getDocumentCount] at hcnt
            simp [hcnt]
  | addBatch now items =>
    simp only [execOp, coordAddDocuments]
    rcases hall : addAllDocs now c.store items with _ | ⟨s1, ids⟩
    · exact ⟨hmap, hcnt⟩
    · simp only
      rw [if_neg (by simp)]
      obtain ⟨hlen, hids⟩ := addAllDocs_facts now items c.store s1 ids hall
      refine ⟨?_, ?_⟩
      · simp [hmap, hids]
      · simp only [getDocumentCount, hlen, List.length_map]
        simp [getDocumentCount] at hcnt
        simp [hcnt]
  | upsert now id text md =>
    simp only [execOp, coordUpsertDocument, upsertDocument]
    exact rebuildIndex_counts embed _
  | update now id text md =>
    simp only [execOp, coordUpdateDocument]
    rcases hup : updateDocument c.store now id text md with ⟨ok, s1⟩
    simp only
    cases ok with
    | true =>
      rw [if_pos rfl]
      exact rebuildIndex_counts embed _
    | false =>
      rw [if_neg (by simp)]
      have := updateDocument_fail c.store now id text md s1 hup
      exact ⟨hmap, by simpa [getDocumentCount, this] using hcnt⟩
  | del id =>
    simp only [execOp, coordDeleteDocument]
    rcases hdel : deleteDocument c.store id with ⟨ok, s1⟩
    simp only
    cases ok with
    | true =>
      rw [if_pos rfl]
      exact rebuildIndex_counts embed _
    | false =>
      rw [if_neg (by simp)]
      have := deleteDocument_fail c.store id s1 hdel
      exact ⟨hmap, by simpa [getDocumentCount, this] using hcnt⟩

/-- Sequences of public mutations preserve I1. -/
theorem execOps_preserves (embed : String → List ℚ) (ops : List MutOp) :
    ∀ c : Coord, countsAgree c → countsAgree (execOps embed c ops) := by
  induction ops with
  | nil => intro c h; exact h
  | cons op rest ih =>
    intro c h
    exact ih (execOp embed c op) (execOp_preserves embed c op h)

/-- C1: starting from any store and any loaded (or absent) index file, after
startup and after every public mutation - add, batch add, upsert, update,
delete, successful or not - the mapping length, the ANN vector count and the
Document Store count agree. -/
theorem c1_counts_agree (embed : String → List ℚ) (s : Store)
    (loaded : Option Nat) (ops : List MutOp) :
    countsAgree (execOps embed (startupLoadOrCreateIndex embed s loaded) ops) :=
  execOps_preserves embed ops _ (startup_counts embed s loaded)

/-! ## Masked mean pooling and L2 normalization (C2, C10) -/

/-- On a 0/1 attention mask the code's truthiness count equals the
specification's count of mask-1 positions. -/
theorem maskedCount_eq_ones (mask : Nat → Nat → Int) (S b : Nat)
    (hmask : ∀ t < S, mask b t = 0 ∨ mask b t = 1) :
    maskedCount mask S b = (maskedOnes mask S b : ℝ) := by
  unfold maskedCount maskedOnes
  have hcong : ∀ t ∈ Finset.range S,
      (if mask b t ≠ 0 then (1 : ℝ) else 0) =
        if mask b t = 1 then (1 : ℝ) else 0 := by
    intro t ht
    rcases hmask t (Finset.mem_range.mp ht) with h | h <;> simp [h]
  rw [Finset.sum_congr rfl hcong, Finset.sum_boole]

/-- On a 0/1 attention mask the code's truthiness sum equals the
specification's sum over mask-1 positions. -/
theorem maskedSum_eq_ones (lastHidden : Nat → Nat → Nat → ℝ)
    (mask : Nat → Nat → Int) (S b h : Nat)
    (hmask : ∀ t < S, mask b t = 0 ∨ mask b t = 1) :
    maskedSum lastHidden mask S b h =
      ∑ t ∈ Finset.range S, if mask b t = 1 then lastHidden b t h else 0 := by
  unfold maskedSum
  refine Finset.sum_congr rfl ?_
  intro t ht
  rcases hmask t (Finset.mem_range.mp ht) with h0 | h0 <;> simp [h0]

/-- The pooled accumulator equals the specification's masked mean. -/
theorem pooled_eq_specMean (lastHidden : Nat → Nat → Nat → ℝ)
    (mask : Nat → Nat → Int) (S b h : Nat)
    (hmask : ∀ t < S, mask b t = 0 ∨ mask b t = 1) :
    pooled lastHidden mask S b h = specMaskedMean lastHidden mask S b h := by
  unfold pooled specMaskedMean
  by_cases hc : maskedOnes mask S b = 0
  · rw [if_pos hc]
    have hall : ∀ t ∈ Finset.range S, ¬ (mask b t = 1) := by
      have := Finset.card_eq_zero.mp hc
      exact fun t ht => Finset.filter_eq_empty_iff.mp this ht
    have hzero : maskedSum lastHidden mask S b h = 0 := by
      unfold maskedSum
      refine Finset.sum_eq_zero ?_
      intro t ht
      rcases hmask t (Finset.mem_range.mp ht) with h0 | h0
      · simp [h0]
      · exact absurd h0 (hall t ht)
    have hcnt : maskedCount mask S b = 0 := by
      rw [maskedCount_eq_ones mask S b hmask, hc]
      simp
    rw [hcnt]
    simp [hzero]
  · rw [if_neg hc]
    have hpos : (0 : ℝ) < maskedCount mask S b := by
      rw [maskedCount_eq_ones mask S b hmask]
      exact_mod_cast Nat.pos_of_ne_zero hc
    rw [if_pos hpos, maskedSum_eq_ones lastHidden mask S b h hmask,
      maskedCount_eq_ones mask S b hmask]

/-- C2: for every batch row, the embedding `meanPoolL2Norm` returns equals
the specification's masked mean (sum over mask-1 positions divided by their
count, zero when there are none) divided by its L2 norm plus 1e-12, the
epsilon applied exactly as stated.  The attention mask, produced by
`tokenizeBatch`, holds only 0s and 1s. -/
theorem c2_mean_pool_matches_spec (lastHidden : Nat → Nat → Nat → ℝ)
    (mask : Nat → Nat → Int) (S H b h : Nat)
    (hmask : ∀ t < S, mask b t = 0 ∨ mask b t = 1) :
    meanPoolL2Norm lastHidden mask S H b h =
      specEmbedding lastHidden mask S H b h := by
  unfold meanPoolL2Norm specEmbedding poolNorm
  have hnorm : ∀ x ∈ Finset.range H,
      (pooled lastHidden mask S b x) ^ 2 =
        (specMaskedMean lastHidden mask S b x) ^ 2 := by
    intro x _
    rw [pooled_eq_specMean lastHidden mask S b x hmask]
  rw [pooled_eq_specMean lastHidden mask S b h hmask,
    Finset.sum_congr rfl hnorm]

/-- Witness for C2 on a concrete 0/1 mask. -/
theorem c2_witness :
    meanPoolL2Norm (fun _ _ _ => (1 : ℝ))
        (fun _ t => if t = 0 then 1 else 0) 2 1 0 0 =
      specEmbedding (fun _ _ _ => (1 : ℝ))
        (fun _ t => if t = 0 then 1 else 0) 2 1 0 0 :=
  c2_mean_pool_matches_spec (fun _ _ _ => (1 : ℝ))
    (fun _ t => if t = 0 then 1 else 0) 2 1 0 0 (by decide)

/-- C10: on a batch row whose attention mask is all zero the computation is
well-defined - the divisor `norm + 1e-12` is strictly positive - and the
returned row is exactly the zero vector, whose L2 norm is 0, not 1 (the
exception to the unit-norm invariant I2). -/
theorem c10_zero_mask_safe (lastHidden : Nat → Nat → Nat → ℝ)
    (mask : Nat → Nat → Int) (S H b : Nat)
    (hmask : ∀ t < S, mask b t = 0) :
    (∀ h, meanPoolL2Norm lastHidden mask S H b h = 0) ∧
    0 < poolNorm lastHidden mask S H b + 1e-12 ∧
    Real.sqrt (∑ h ∈ Finset.range H,
      (meanPoolL2Norm lastHidden mask S H b h) ^ 2) = 0 ∧
    Real.sqrt (∑ h ∈ Finset.range H,
      (meanPoolL2Norm lastHidden mask S H b h) ^ 2) ≠ 1 := by
  have hsum : ∀ h, maskedSum lastHidden mask S b h = 0 := by
    intro h
    unfold maskedSum
    refine Finset.sum_eq_zero ?_
    intro t ht
    rw [hmask t (Finset.mem_range.mp ht)]
    simp
  have hpool : ∀ h, pooled lastHidden mask S b h = 0 := by
    intro h
    unfold pooled
    by_cases hcond : (0 : ℝ) < maskedCount mask S b
    · rw [if_pos hcond, hsum h]
      simp
    · rw [if_neg hcond]
      exact hsum h
  have hnorm : poolNorm lastHidden mask S H b = 0 := by
    unfold poolNorm
    rw [Finset.sum_eq_zero (fun x _ => by rw [hpool x]; ring)]
    exact Real.sqrt_zero
  have hdiv : 0 < poolNorm lastHidden mask S H b + 1e-12 := by
    rw [hnorm]
    norm_num
  have hzero : ∀ h, meanPoolL2Norm lastHidden mask S H b h = 0 := by
    intro h
    unfold meanPoolL2Norm
    rw [hpool h, zero_div]
  have houtnorm : Real.sqrt (∑ h ∈ Finset.range H,
      (meanPoolL2Norm lastHidden mask S H b h) ^ 2) = 0 := by
    rw [Finset.sum_eq_zero (fun x _ => by rw [hzero x]; ring)]
    exact Real.sqrt_zero
  refine ⟨hzero, hdiv, houtnorm, ?_⟩
  rw [houtnorm]
  norm_num

/-- Witness for C10 on a concrete all-zero mask. -/
theorem c10_witness :
    meanPoolL2Norm (fun _ _ _ => (1 : ℝ)) (fun _ _ => 0) 1 1 0 0 = 0 ∧
    0 < poolNorm (fun _ _ _ => (1 : ℝ)) (fun _ _ => 0) 1 1 0 + 1e-12 :=
  ⟨(c10_zero_mask_safe (fun _ _ _ => (1 : ℝ)) (fun _ _ => 0) 1 1 0
      (by decide)).1 0,
    (c10_zero_mask_safe (fun _ _ _ => (1 : ℝ)) (fun _ _ => 0) 1 1 0
      (by decide)).2.1⟩

/-! ## Cosine similarity matrix (C8) -/

/-- Reading position `i*H + h` of the flattened buffer of uniform-length
rows lands in row `i` at offset `h`. -/
theorem flatAt_flatten (H : Nat) :
    ∀ (embs : List (List ℚ)), (∀ e ∈ embs, e.length = H) →
      ∀ (i h : Nat), h < H → i < embs.length →
        flatAt embs.flatten (i * H + h) = (embs.getD i []).getD h 0 := by
  intro embs
  induction embs with
  | nil =>
    intro _ i h _ hi
    simp at hi
  | cons e rest ih =>
    intro hH i h hh hi
    have he : e.length = H := hH e (by simp)
    cases i with
    | zero =>
      simp only [Nat.zero_mul, Nat.zero_add, List.flatten_cons,
        List.getD_cons_zero]
      unfold flatAt
      exact List.getD_append e rest.flatten 0 h (he ▸ hh)
    | succ i2 =>
      have hidx : (i2 + 1) * H + h = e.length + (i2 * H + h) := by
        rw [he]
        ring
      rw [hidx]
      unfold flatAt
      rw [List.flatten_cons,
        List.getD_append_right e rest.flatten 0 _ (Nat.le_add_right _ _),
        Nat.add_sub_cancel_left]
      have := ih (fun x hx => hH x (by simp [hx])) i2 h hh
        (Nat.lt_of_succ_lt_succ hi)
      unfold flatAt at this
      rw [this]
      simp

/-- The dot product of two length-`H` vectors as an indexed sum. -/
theorem dotQ_eq_sum (H : Nat) :
    ∀ (a b : List ℚ), a.length = H → b.length = H →
      dotQ a b = ∑ x ∈ Finset.range H, a.getD x 0 * b.getD x 0 := by
  induction H with
  | zero =>
    intro a b ha hb
    rw [List.length_eq_zero.mp ha, List.length_eq_zero.mp hb]
    simp [dotQ]
  | succ n ih =>
    intro a b ha hb
    cases a with
    | nil => simp at ha
    | cons x xs =>
      cases b with
      | nil => simp at hb
      | cons y ys =>
        have hxs : xs.length = n := by simpa using ha
        have hys : ys.length = n := by simpa using hb
        rw [Finset.sum_range_succ']
        simp only [List.getD_cons_succ, List.getD_cons_zero]
        rw [← ih xs ys hxs hys]
        simp [dotQ, List.zipWith]
        ring

/-- Each matrix entry is the mathematical dot product of the two rows. -/
theorem cosineEntry_eq_dotQ (embs : List (List ℚ))
    (hH : ∀ e ∈ embs, e.length = (embs.headD []).length) (i j : Nat)
    (hi : i < embs.length) (hj : j < embs.length) :
    cosineEntry embs i j = dotQ (embs.getD i []) (embs.getD j []) := by
  have hleni : (embs.getD i []).length = (embs.headD []).length := by
    rw [List.getD_eq_getElem embs [] hi]
    exact hH _ (List.getElem_mem hi)
  have hlenj : (embs.getD j []).length = (embs.headD []).length := by
    rw [List.getD_eq_getElem embs [] hj]
    exact hH _ (List.getElem_mem hj)
  unfold cosineEntry
  rw [dotQ_eq_sum (embs.headD []).length _ _ hleni hlenj]
  refine Finset.sum_congr rfl ?_
  intro h hh
  rw [flatAt_flatten (embs.headD []).length embs hH i h
      (Finset.mem_range.mp hh) hi,
    flatAt_flatten (embs.headD []).length embs hH j h
      (Finset.mem_range.mp hh) hj]

/-- Reading cell `(i, j)` of the row-major matrix buffer. -/
theorem cosineSimMatrix_getD (embs : List (List ℚ)) (hne : embs ≠ [])
    (i j : Nat) (hi : i < embs.length) (hj : j < embs.length) :
    (cosineSimMatrix embs).getD (i * embs.length + j) 0 =
      cosineEntry embs i j := by
  unfold cosineSimMatrix
  rw [if_neg (by simpa [List.isEmpty_iff] using hne)]
  have hlt : i * embs.length + j < embs.length * embs.length := by
    calc i * embs.length + j < i * embs.length + embs.length := by omega
      _ = (i + 1) * embs.length := by ring
      _ ≤ embs.length * embs.length := Nat.mul_le_mul_right _ hi
  have hlen : i * embs.length + j <
      ((List.range (embs.length * embs.length)).map
        (fun n => cosineEntry embs (n / embs.length) (n % embs.length))).length := by
    simpa using hlt
  rw [List.getD_eq_getElem _ _ hlen, List.getElem_map, List.getElem_range]
  have hdiv : (i * embs.length + j) / embs.length = i := by
    rw [Nat.mul_comm i embs.length, Nat.mul_add_div (by omega)]
    simp [Nat.div_eq_of_lt hj]
  have hmod : (i * embs.length + j) % embs.length = j := by
    rw [Nat.mul_comm i embs.length, Nat.mul_add_mod]
    exact Nat.mod_eq_of_lt hj
  rw [hdiv, hmod]

/-- The dot product is symmetric. -/
theorem dotQ_comm (a b : List ℚ) : dotQ a b = dotQ b a := by
  unfold dotQ
  rw [List.zipWith_comm_of_comm _ (fun x y => mul_comm x y)]

/-- C8: for every non-empty uniform-length list of embedding vectors, the
cosine-similarity helper returns the row-major dot-product matrix `E · Eᵀ`;
the matrix is symmetric, and every diagonal entry of an L2-normalized input
(squared norm 1) equals 1.0 within 1e-5. -/
theorem c8_cosine_matrix (embs : List (List ℚ)) (hne : embs ≠ [])
    (hH : ∀ e ∈ embs, e.length = (embs.headD []).length) :
    (∀ i j, i < embs.length → j < embs.length →
      (cosineSimMatrix embs).getD (i * embs.length + j) 0 =
        dotQ (embs.getD i []) (embs.getD j [])) ∧
    (∀ i j, i < embs.length → j < embs.length →
      (cosineSimMatrix embs).getD (i * embs.length + j) 0 =
        (cosineSimMatrix embs).getD (j * embs.length + i) 0) ∧
    (∀ i, i < embs.length →
      dotQ (embs.getD i []) (embs.getD i []) = 1 →
      |(cosineSimMatrix embs).getD (i * embs.length + i) 0 - 1| ≤ 1e-5) := by
  have hpart1 : ∀ i j, i < embs.length → j < embs.length →
      (cosineSimMatrix embs).getD (i * embs.length + j) 0 =
        dotQ (embs.getD i []) (embs.getD j []) := by
    intro i j hi hj
    rw [cosineSimMatrix_getD embs hne i j hi hj,
      cosineEntry_eq_dotQ embs hH i j hi hj]
  refine ⟨hpart1, ?_, ?_⟩
  · intro i j hi hj
    rw [hpart1 i j hi hj, hpart1 j i hj hi, dotQ_comm]
  · intro i hi hunit
    rw [hpart1 i i hi hi, hunit]
    norm_num

/-- Witness for C8 on a concrete two-row embedding list. -/
theorem c8_witness :
    (cosineSimMatrix [[(1 : ℚ)], [0]]).getD 0 0 = dotQ [(1 : ℚ)] [(1 : ℚ)] :=
  (c8_cosine_matrix [[(1 : ℚ)], [0]] (by simp) (by simp)).1 0 0
    (by decide) (by decide)
